import Mathlib

/-!
Verification of the `ctx` compact-timestamp codecs.

The repository contains two independently written Go variants of one idea:

* `CTX40` — the fixed-epoch variant (40-bit value: 30 bits of seconds since
  2020-01-01 UTC, 10 bits of sub-second fraction obtained by dividing the
  nanosecond count by 1_000_000); serialized as 5 big-endian bytes.
* `CTX32` — the dynamic-scale variant (32-bit value: 2-bit scale selector,
  1 sign bit, 17-bit magnitude, 4-bit extra multiplier, 8-bit fraction);
  serialized as 4 big-endian bytes.

Machine integers are embedded as `Nat`/`Int` with explicit `% 2^w` where the
Go code relies on wraparound.  The dynamic-scale variant performs its
arithmetic in `float64`; it is embedded here over `ℚ` (the exact real-valued
semantics of the same expressions).  Every concrete input used in a theorem
below is small enough that the `float64` computation is exact, so `ℚ` and
`float64` agree there; the one theorem that quantifies over inputs of the
`float64` loop (the amended C4) restricts to `|diff| ≤ 2^53`, the range on
which the loop's comparisons provably coincide with the exact semantics
(see the comment on `CTX32.extraGo`).
-/

/-! ### Generic bit-field lemmas

The Go code extracts a `w`-bit field at offset `s` with `(c & mask) >> s`
where `mask = (2^w - 1) << s`, and packs disjoint fields with `|`.
These lemmas convert those operations to `/ % *` arithmetic so that `omega`
can finish the field computations.
-/

theorem shiftLeft_shiftRight_self (x s : ℕ) : (x <<< s) >>> s = x := by
  rw [Nat.shiftLeft_eq, Nat.shiftRight_eq_div_pow]
  exact Nat.mul_div_cancel x (Nat.two_pow_pos s)

theorem and_mask_shift (c s w : ℕ) :
    c &&& ((2 ^ w - 1) <<< s) = ((c >>> s) % 2 ^ w) <<< s := by
  apply Nat.eq_of_testBit_eq
  intro i
  by_cases hsi : s ≤ i
  · simp [Nat.testBit_and, Nat.testBit_shiftLeft, Nat.testBit_shiftRight,
      Nat.testBit_two_pow_sub_one, Nat.testBit_mod_two_pow, hsi,
      Nat.add_sub_cancel' hsi, Bool.and_comm, Bool.and_left_comm]
  · simp [Nat.testBit_and, Nat.testBit_shiftLeft, hsi]

theorem and_mask_extract (c s w : ℕ) :
    (c &&& ((2 ^ w - 1) <<< s)) >>> s = (c / 2 ^ s) % 2 ^ w := by
  rw [and_mask_shift, shiftLeft_shiftRight_self, Nat.shiftRight_eq_div_pow]

theorem and_mask_eq_mul (c s w : ℕ) :
    c &&& ((2 ^ w - 1) <<< s) = ((c / 2 ^ s) % 2 ^ w) * 2 ^ s := by
  rw [and_mask_shift, Nat.shiftLeft_eq, Nat.shiftRight_eq_div_pow]

theorem or_eq_add_of_dvd_of_lt {w : ℕ} {x y : ℕ} (hx : 2 ^ w ∣ x) (hy : y < 2 ^ w) :
    x ||| y = x + y := by
  obtain ⟨k, rfl⟩ := hx
  rw [Nat.mul_add_lt_is_or hy k]

/-! ### CTX40 — the fixed-epoch variant (`src/unnamed/part_000`)

Go source:
```
const epoch = 1577836800; secondMask = 0x3FFFFFFF; nanoDivisor = 1_000_000
func NewCTX(t time.Time) CTX {
  seconds := uint64(t.Unix() - epoch)
  nanos := uint64(t.Nanosecond()) / nanoDivisor
  return CTX((seconds & secondMask) | (nanos << 30))
}
func (ct CTX) Time() time.Time {
  seconds := int64(ct&secondMask) + epoch
  nanos := (ct >> 30) * nanoDivisor
  return time.Unix(seconds, int64(nanos))
}
```
A wall-clock input is represented by its Unix second `unix : ℤ` together with
the nanosecond-within-second `nsec : ℕ` (Go guarantees `0 ≤ nsec < 10^9`).
The `uint64(...)` conversion of the possibly negative difference is the
two's-complement representative, i.e. `Int.emod _ (2^64)`.
-/

namespace CTX40

def epoch : ℤ := 1577836800

def secondMask : ℕ := 0x3FFFFFFF

def nanoDivisor : ℕ := 1000000

/-- Embedding of `NewCTX`: the packed 40-bit value as a natural number. -/
def NewCTX (unix : ℤ) (nsec : ℕ) : ℕ :=
  let seconds : ℕ := ((unix - epoch) % 2 ^ 64).toNat
  let nanos : ℕ := nsec / nanoDivisor
  (seconds &&& secondMask) ||| (nanos <<< 30)

/-- Seconds reconstructed by `Time()` (the `int64(ct&secondMask) + epoch` line). -/
def timeSeconds (c : ℕ) : ℤ := ((c &&& secondMask : ℕ) : ℤ) + epoch

/-- Nanosecond argument passed to `time.Unix` by `Time()`. -/
def timeNanos (c : ℕ) : ℕ := (c >>> 30) * nanoDivisor

/-- The instant denoted by `Time()`, measured in nanoseconds since the Unix
epoch (`time.Unix(s, n)` denotes the instant `s*10^9 + n` ns). -/
def Time (c : ℕ) : ℤ := timeSeconds c * 10 ^ 9 + (timeNanos c : ℤ)

/-- The stored 30-bit seconds field. -/
def secondsField (c : ℕ) : ℕ := c &&& secondMask

/-- The stored 10-bit fraction field. -/
def fracField (c : ℕ) : ℕ := c >>> 30

/-- Embedding of `Bytes`: `binary.BigEndian.PutUint32(b[0:4], uint32(ct>>8))`
followed by `b[4] = byte(ct)`. -/
def Bytes (c : ℕ) : List ℕ :=
  let u : ℕ := (c >>> 8) % 2 ^ 32
  [(u >>> 24) % 2 ^ 8, (u >>> 16) % 2 ^ 8, (u >>> 8) % 2 ^ 8, u % 2 ^ 8, c % 2 ^ 8]

/-- Embedding of `FromBytes`.  The Go function indexes `b[0:4]` and `b[4]`
with no length check, so any slice shorter than 5 bytes makes it panic with
an out-of-range index; the panic is modelled by `none`. -/
def FromBytes (b : List ℕ) : Option ℕ :=
  match b with
  | b0 :: b1 :: b2 :: b3 :: b4 :: _ =>
      some ((((b0 <<< 24) ||| (b1 <<< 16) ||| (b2 <<< 8) ||| b3) <<< 8) ||| b4)
  | _ => none

end CTX40

/-! #### Packing arithmetic for CTX40 -/

theorem CTX40.pack40_eq_add (seconds nanos : ℕ) :
    (seconds &&& secondMask) ||| (nanos <<< 30) = seconds % 2 ^ 30 + nanos * 2 ^ 30 := by
  have hmask : (secondMask : ℕ) = 2 ^ 30 - 1 := by decide
  have hsec : seconds &&& secondMask = seconds % 2 ^ 30 := by
    rw [hmask, Nat.and_pow_two_sub_one_eq_mod]
  rw [hsec, Nat.lor_comm, Nat.shiftLeft_eq,
    or_eq_add_of_dvd_of_lt (w := 30) ⟨nanos, by ring⟩ (Nat.mod_lt _ (by norm_num))]
  ring

theorem CTX40.newCTX40_eq_add (unix : ℤ) (nsec : ℕ) :
    CTX40.NewCTX unix nsec
      = ((unix - epoch) % 2 ^ 64).toNat % 2 ^ 30 + nsec / nanoDivisor * 2 ^ 30 := by
  unfold CTX40.NewCTX
  exact CTX40.pack40_eq_add _ _

theorem CTX40.and_secondMask (c : ℕ) : c &&& secondMask = c % 2 ^ 30 := by
  have hmask : (secondMask : ℕ) = 2 ^ 30 - 1 := by decide
  rw [hmask, Nat.and_pow_two_sub_one_eq_mod]

theorem CTX40.bytes_or_eq {b0 b1 b2 b3 b4 : ℕ}
    (h0 : b0 < 2 ^ 8) (h1 : b1 < 2 ^ 8) (h2 : b2 < 2 ^ 8) (h3 : b3 < 2 ^ 8)
    (h4 : b4 < 2 ^ 8) :
    (((b0 <<< 24) ||| (b1 <<< 16) ||| (b2 <<< 8) ||| b3) <<< 8) ||| b4
      = ((((b0 * 256 + b1) * 256 + b2) * 256 + b3) * 256) + b4 := by
  have e1 : (b0 <<< 24) ||| (b1 <<< 16) = b0 <<< 24 + b1 <<< 16 := by
    refine or_eq_add_of_dvd_of_lt (w := 24) ⟨b0, by rw [Nat.shiftLeft_eq]; ring⟩ ?_
    rw [Nat.shiftLeft_eq]
    omega
  have e2 : (b0 <<< 24 + b1 <<< 16) ||| (b2 <<< 8) = b0 <<< 24 + b1 <<< 16 + b2 <<< 8 := by
    refine or_eq_add_of_dvd_of_lt (w := 16)
      ⟨b0 * 2 ^ 8 + b1, by simp only [Nat.shiftLeft_eq]; ring⟩ ?_
    rw [Nat.shiftLeft_eq]
    omega
  have e3 : (b0 <<< 24 + b1 <<< 16 + b2 <<< 8) ||| b3
      = b0 <<< 24 + b1 <<< 16 + b2 <<< 8 + b3 := by
    refine or_eq_add_of_dvd_of_lt (w := 8)
      ⟨b0 * 2 ^ 16 + b1 * 2 ^ 8 + b2, by simp only [Nat.shiftLeft_eq]; ring⟩ h3
  have e4 : ((b0 <<< 24 + b1 <<< 16 + b2 <<< 8 + b3) <<< 8) ||| b4
      = (b0 <<< 24 + b1 <<< 16 + b2 <<< 8 + b3) <<< 8 + b4 := by
    refine or_eq_add_of_dvd_of_lt (w := 8)
      ⟨b0 * 2 ^ 24 + b1 * 2 ^ 16 + b2 * 2 ^ 8 + b3, by simp only [Nat.shiftLeft_eq]; ring⟩ h4
  rw [e1, e2, e3, e4]
  simp only [Nat.shiftLeft_eq]
  ring

/-- C1 counterexample input: the instant 999999 ns after the 2020 epoch.
The encoder stores fraction `999999 / 10^6 = 0`, so the decoded instant is
exactly the epoch and the round-trip error is 999999 ns, which exceeds
1/1024 s (999999 * 1024 > 10^9); and the stored fraction differs from the
claimed `nsec / (10^9 / 2^10)`, which would be 1. -/
theorem C1_counterexample :
    (CTX40.epoch * 10 ^ 9 + 999999) - CTX40.Time (CTX40.NewCTX CTX40.epoch 999999) = 999999
      ∧ 10 ^ 9 < 999999 * 1024
      ∧ CTX40.fracField (CTX40.NewCTX CTX40.epoch 999999) = 0
      ∧ 999999 / (10 ^ 9 / 2 ^ 10) = 1 := by
  refine ⟨?_, by norm_num, ?_, by norm_num⟩
  · decide
  · decide

/-- C1 (amended): for times in the representable range the fixed-epoch
round-trip error equals `nsec % 10^6` nanoseconds — strictly below 1/1000 s
(not 1/1024 s) — and the stored fraction is `nsec / 10^6` (divisor `10^6`,
truncating), not `nsec / (10^9 / 2^10)`. -/
theorem C1_fixed_roundtrip_bound (unix : ℤ) (nsec : ℕ)
    (h0 : CTX40.epoch ≤ unix) (h1 : unix < CTX40.epoch + 2 ^ 30) (hn : nsec < 10 ^ 9) :
    (unix * 10 ^ 9 + (nsec : ℤ)) - CTX40.Time (CTX40.NewCTX unix nsec) = ((nsec % 10 ^ 6 : ℕ) : ℤ)
      ∧ CTX40.fracField (CTX40.NewCTX unix nsec) = nsec / 10 ^ 6
      ∧ ((unix * 10 ^ 9 + (nsec : ℤ)) - CTX40.Time (CTX40.NewCTX unix nsec)) * 1000 < 10 ^ 9 := by
  have hrep := CTX40.newCTX40_eq_add unix nsec
  rw [CTX40.epoch] at h0 h1
  unfold CTX40.Time CTX40.timeSeconds CTX40.timeNanos CTX40.fracField
  rw [hrep, CTX40.and_secondMask, Nat.shiftRight_eq_div_pow, CTX40.nanoDivisor, CTX40.epoch]
  push_cast
  omega

/-- C3: in the fixed-epoch configuration, a delta past `2^30` seconds is not
rejected: the stored 30-bit seconds field is exactly `delta mod 2^30`. -/
theorem C3_seconds_wraparound (unix : ℤ) (nsec : ℕ) (h : 2 ^ 30 < unix - CTX40.epoch) :
    ((CTX40.secondsField (CTX40.NewCTX unix nsec) : ℕ) : ℤ) = (unix - CTX40.epoch) % 2 ^ 30 := by
  unfold CTX40.secondsField
  rw [CTX40.newCTX40_eq_add, CTX40.and_secondMask]
  omega

/-- Witness for C3 at a concrete out-of-range input: delta `2^30 + 7`
wraps to a stored seconds field of `7`. -/
theorem C3_seconds_wraparound_witness :
    2 ^ 30 < (CTX40.epoch + 2 ^ 30 + 7) - CTX40.epoch
      ∧ ((CTX40.secondsField (CTX40.NewCTX (CTX40.epoch + 2 ^ 30 + 7) 0) : ℕ) : ℤ)
          = ((CTX40.epoch + 2 ^ 30 + 7) - CTX40.epoch) % 2 ^ 30 :=
  ⟨by omega, C3_seconds_wraparound (CTX40.epoch + 2 ^ 30 + 7) 0 (by omega)⟩

/-- C10: the fixed-epoch `FromBytes` has no length check — on any byte slice
shorter than 5 it hits an out-of-range slice index (modelled by `none`)
instead of returning a defined value, unlike the dynamic-scale variant. -/
theorem C10_fromBytes_short_panics (b : List ℕ) (h : b.length < 5) :
    CTX40.FromBytes b = none := by
  match b with
  | [] => rfl
  | [_] => rfl
  | [_, _] => rfl
  | [_, _, _] => rfl
  | [_, _, _, _] => rfl
  | _ :: _ :: _ :: _ :: _ :: _ => simp only [List.length_cons] at h; omega

/-- Witness for C10 at the concrete 3-byte input `[1, 2, 3]`. -/
theorem C10_fromBytes_short_panics_witness : CTX40.FromBytes [1, 2, 3] = none :=
  C10_fromBytes_short_panics [1, 2, 3] (by norm_num)

/-! ### CTX32 — the dynamic-scale variant (`src/ctx.go`)

Go layout constants: `scaleMask 0xC0000000`, `signMask 0x20000000`,
`valueMask 0x1FFFF000`, `extraMask 0x00000F00`, `fracMask 0x000000FF`,
with shifts 30/29/12/8/0 and `fracMultiple = 256`.

The encoder and decoder do their arithmetic in `float64`.  They are embedded
over `ℚ`, the exact real-valued semantics of the same expressions; the
conversions `int64(v)` and `uint32(v)` of a non-negative float truncate
toward zero, modelled by `ratTrunc` below (Go leaves the out-of-range case
implementation-defined; the model uses the exact value, and every concrete
input appearing in a theorem below stays far inside the exactly-representable
range of `float64`, where the two semantics coincide).

The input is `diff : ℤ`, the value of `t.UnixNano()` — nanoseconds since the
Unix epoch.
-/

/-- Truncation toward zero of a rational, the semantics of Go's `int64(f)`
for an in-range `float64`. -/
def ratTrunc (q : ℚ) : ℤ :=
  if 0 ≤ q then ((q.num.toNat / q.den : ℕ) : ℤ) else -(((-q.num).toNat / q.den : ℕ) : ℤ)

theorem ratTrunc_neg (q : ℚ) : ratTrunc (-q) = -ratTrunc q := by
  rcases lt_trichotomy q 0 with h | h | h
  · have h1 : ¬0 ≤ q := not_le.mpr h
    have h2 : 0 ≤ -q := by linarith
    simp only [ratTrunc, h1, h2, if_true, if_false, Rat.neg_num, Rat.neg_den, Int.neg_neg,
      neg_neg]
  · subst h
    simp [ratTrunc]
  · have h1 : 0 ≤ q := le_of_lt h
    have h2 : ¬0 ≤ -q := by simp [not_le]; linarith
    simp only [ratTrunc, h1, h2, if_true, if_false, Rat.neg_num, Rat.neg_den, neg_neg]

namespace CTX32

def scaleMask : ℕ := 0xC0000000

def signMask : ℕ := 0x20000000

def valueMask : ℕ := 0x1FFFF000

def extraMask : ℕ := 0x00000F00

def fracMask : ℕ := 0x000000FF

def fracMultiple : ℕ := 256

/-- Embedding of `var scaleFactors = []float64{1e-9, 1e-6, 1e-3, 1}`. -/
def scaleFactors : List ℚ := [1 / 10 ^ 9, 1 / 10 ^ 6, 1 / 10 ^ 3, 1]

/-- Embedding of the scale-selection branch of `NewCTX`: thresholds `1e9`,
`1e12`, `1e15` on the absolute nanosecond delta. -/
def scaleOf (a : ℚ) : ℕ :=
  if a < 10 ^ 9 then 0
  else if a < 10 ^ 12 then 1
  else if a < 10 ^ 15 then 2
  else 3

/-- Constant `float64(math.MaxInt32)`, which is exactly `2^31 - 1`. -/
def maxInt32 : ℚ := 2147483647

/-- Embedding of the extra-scale loop of `NewCTX`:
```
for absDiff >= float64(math.MaxInt32) {
  absDiff /= 1000
  extra++
  if extra >= 15 { break }
}
```
The loop executes at most 15 iterations (each one increments `extra`, and the
loop breaks once `extra` reaches 15), so a structural fuel of 15 — never
exhausted when starting from `extra = 0` — makes the recursion structural.

This is the exact real-valued (`ℚ`) semantics of the `float64` loop: the
divisions carry no IEEE rounding.  It coincides with the `float64` loop
whenever `|diff| ≤ 2^53`: there `float64(diff)` is exact, and a guard
comparison can never be decided differently by rounding — when the guard is
reached at step `k`, the exact quotient `|diff| / 1000^k` is a multiple of
`10^(-3k)`, so it is either equal to `2^31 - 1` (then all divisions so far
were exact) or at least `10^-6` away from it for `k ≤ 2`, while the
accumulated rounding error of at most two near-guard divisions of a value of
magnitude `≈ 2^31` is below `5·10^-7`; a near-guard quotient at `k ≥ 3`
would need `|diff| ≈ (2^31-1)·10^9 > 2^53`.  Above `2^53` the conversion
`float64(diff)` itself rounds (e.g. at `diff = 2147483646999999900` it rounds
up to `2147483647·10^9` and the program runs one more iteration than the
exact loop), so theorems that quantify over inputs restrict to
`|diff| ≤ 2^53`. -/
def extraGo : ℕ → ℚ → ℕ → ℕ
  | 0, _, e => e
  | fuel + 1, a, e =>
      if maxInt32 ≤ a then
        if 15 ≤ e + 1 then e + 1 else extraGo fuel (a / 1000) (e + 1)
      else e

/-- The `extra` value computed by `NewCTX` for input `diff`. -/
def extraOf (a : ℚ) : ℕ := extraGo 15 a 0

/-- The scale selected by `NewCTX` for input `diff` (`absDiff := |float64(diff)|`). -/
def scaleSel (diff : ℤ) : ℕ := scaleOf |(diff : ℚ)|

/-- The extra multiplier selected by `NewCTX` for input `diff`. -/
def extraSel (diff : ℤ) : ℕ := extraOf |(diff : ℚ)|

/-- The `value := float64(diff) * scaleFactor` computed by `NewCTX`, where
`scaleFactor := scaleFactors[scale] * math.Pow(1000, float64(extra))`. -/
def valueOf (diff : ℤ) : ℚ :=
  (diff : ℚ) * (scaleFactors.getD (scaleSel diff) 0 * 1000 ^ extraSel diff)

/-- The `intPart := uint32(math.Abs(float64(int64(value))))` of `NewCTX`. -/
def intPartOf (diff : ℤ) : ℕ := (ratTrunc |valueOf diff|).toNat % 2 ^ 32

/-- The `fracPart := uint32((math.Abs(value) - float64(intPart)) * fracMultiple)`
of `NewCTX`. -/
def fracPartOf (diff : ℤ) : ℕ :=
  (ratTrunc ((|valueOf diff| - (intPartOf diff : ℚ)) * fracMultiple)).toNat % 2 ^ 32

/-- The sign bit set by `NewCTX` (`if diff < 0 { result |= 1 << signShift }`). -/
def signOf (diff : ℤ) : ℕ := if diff < 0 then 1 else 0

/-- Embedding of `NewCTX`: the packed 32-bit value, fields or-ed in source
order (scale, sign, masked value, masked extra, masked fraction). -/
def NewCTX (diff : ℤ) : ℕ :=
  ((((scaleSel diff <<< 30) ||| (signOf diff <<< 29))
      ||| ((intPartOf diff &&& 0x1FFFF) <<< 12))
      ||| ((extraSel diff &&& 0xF) <<< 8))
      ||| (fracPartOf diff &&& 0xFF)

/-- Field extraction `(uint32(c) & scaleMask) >> scaleShift` of `Time()`. -/
def scaleField (c : ℕ) : ℕ := (c &&& scaleMask) >>> 30

/-- Observer for the sign bit: `(uint32(c) & signMask) >> signShift`. -/
def signField (c : ℕ) : ℕ := (c &&& signMask) >>> 29

/-- Field extraction `(uint32(c) & valueMask) >> valueShift` of `Time()`. -/
def valueField (c : ℕ) : ℕ := (c &&& valueMask) >>> 12

/-- Field extraction `(uint32(c) & extraMask) >> extraShift` of `Time()`. -/
def extraField (c : ℕ) : ℕ := (c &&& extraMask) >>> 8

/-- Field extraction `uint32(c) & fracMask` of `Time()`. -/
def fracField (c : ℕ) : ℕ := c &&& fracMask

/-- Embedding of `Time()`: the instant `time.Unix(0, int64(totalValue))`
denotes, in nanoseconds since the Unix epoch.  The slice access
`scaleFactors[scale]` panics when the index is out of range, modelled by
`Option`; the decode arithmetic is
`totalValue := (float64(value) + frac) / scaleFactor`, negated when the sign
bit is set. -/
def Time (c : ℕ) : Option ℤ :=
  (scaleFactors.get? (scaleField c)).map fun sf =>
    let frac : ℚ := (fracField c : ℚ) / fracMultiple
    let scaleFactor : ℚ := sf * 1000 ^ extraField c
    let totalValue : ℚ := ((valueField c : ℚ) + frac) / scaleFactor
    ratTrunc (if (c &&& signMask) ≠ 0 then -totalValue else totalValue)

/-- Embedding of `Bytes`: four big-endian bytes of the 32-bit value. -/
def Bytes (c : ℕ) : List ℕ :=
  [(c >>> 24) % 2 ^ 8, (c >>> 16) % 2 ^ 8, (c >>> 8) % 2 ^ 8, c % 2 ^ 8]

/-- Embedding of `FromBytes`: a slice whose length is not 4 yields the zero
value; otherwise the big-endian reconstruction. -/
def FromBytes (b : List ℕ) : ℕ :=
  match b with
  | [b0, b1, b2, b3] => (b0 <<< 24) ||| (b1 <<< 16) ||| (b2 <<< 8) ||| b3
  | _ => 0

end CTX32

/-! #### Packing arithmetic for CTX32 -/

theorem CTX32.extraGo_le (f : ℕ) : ∀ (a : ℚ) (e : ℕ), e ≤ 14 → CTX32.extraGo f a e ≤ 15 := by
  induction f with
  | zero => intro a e he; simpa [CTX32.extraGo] using by omega
  | succ f ih =>
      intro a e he
      unfold CTX32.extraGo
      by_cases hc : CTX32.maxInt32 ≤ a
      · by_cases hb : 15 ≤ e + 1
        · simp [hc, hb]; omega
        · simp only [hc, hb, if_true, if_false]
          exact ih (a / 1000) (e + 1) (by omega)
      · simp [hc]; omega

theorem CTX32.extraSel_le (diff : ℤ) : CTX32.extraSel diff ≤ 15 :=
  CTX32.extraGo_le 15 _ 0 (by omega)

theorem CTX32.scaleOf_lt (a : ℚ) : CTX32.scaleOf a < 4 := by
  unfold CTX32.scaleOf
  split_ifs <;> omega

theorem CTX32.signOf_lt (diff : ℤ) : CTX32.signOf diff < 2 := by
  unfold CTX32.signOf
  split_ifs <;> omega

theorem CTX32.pack32_eq_add (sc sg ip ex fr : ℕ) (hsc : sc < 4) (hsg : sg < 2) :
    ((((sc <<< 30) ||| (sg <<< 29)) ||| ((ip &&& 0x1FFFF) <<< 12))
        ||| ((ex &&& 0xF) <<< 8)) ||| (fr &&& 0xFF)
      = fr % 2 ^ 8 + ex % 2 ^ 4 * 2 ^ 8 + ip % 2 ^ 17 * 2 ^ 12 + sg * 2 ^ 29 + sc * 2 ^ 30 := by
  have hip : ip &&& 0x1FFFF = ip % 2 ^ 17 := by
    rw [show (0x1FFFF : ℕ) = 2 ^ 17 - 1 by decide, Nat.and_pow_two_sub_one_eq_mod]
  have hex : ex &&& 0xF = ex % 2 ^ 4 := by
    rw [show (0xF : ℕ) = 2 ^ 4 - 1 by decide, Nat.and_pow_two_sub_one_eq_mod]
  have hfr : fr &&& 0xFF = fr % 2 ^ 8 := by
    rw [show (0xFF : ℕ) = 2 ^ 8 - 1 by decide, Nat.and_pow_two_sub_one_eq_mod]
  rw [hip, hex, hfr]
  simp only [Nat.shiftLeft_eq]
  have hipl := Nat.mod_lt ip (y := 2 ^ 17) (by norm_num)
  have hexl := Nat.mod_lt ex (y := 2 ^ 4) (by norm_num)
  have hfrl := Nat.mod_lt fr (y := 2 ^ 8) (by norm_num)
  have s1 : sc * 2 ^ 30 ||| sg * 2 ^ 29 = sc * 2 ^ 30 + sg * 2 ^ 29 :=
    or_eq_add_of_dvd_of_lt (w := 30) ⟨sc, by ring⟩ (by omega)
  have s2 : (sc * 2 ^ 30 + sg * 2 ^ 29) ||| (ip % 2 ^ 17 * 2 ^ 12)
      = sc * 2 ^ 30 + sg * 2 ^ 29 + ip % 2 ^ 17 * 2 ^ 12 :=
    or_eq_add_of_dvd_of_lt (w := 29) ⟨sc * 2 + sg, by ring⟩ (by omega)
  have s3 : (sc * 2 ^ 30 + sg * 2 ^ 29 + ip % 2 ^ 17 * 2 ^ 12) ||| (ex % 2 ^ 4 * 2 ^ 8)
      = sc * 2 ^ 30 + sg * 2 ^ 29 + ip % 2 ^ 17 * 2 ^ 12 + ex % 2 ^ 4 * 2 ^ 8 :=
    or_eq_add_of_dvd_of_lt (w := 12)
      ⟨sc * 2 ^ 18 + sg * 2 ^ 17 + ip % 2 ^ 17, by ring⟩ (by omega)
  have s4 : (sc * 2 ^ 30 + sg * 2 ^ 29 + ip % 2 ^ 17 * 2 ^ 12 + ex % 2 ^ 4 * 2 ^ 8)
        ||| (fr % 2 ^ 8)
      = sc * 2 ^ 30 + sg * 2 ^ 29 + ip % 2 ^ 17 * 2 ^ 12 + ex % 2 ^ 4 * 2 ^ 8 + fr % 2 ^ 8 :=
    or_eq_add_of_dvd_of_lt (w := 8)
      ⟨sc * 2 ^ 22 + sg * 2 ^ 21 + ip % 2 ^ 17 * 2 ^ 4 + ex % 2 ^ 4, by ring⟩ (by omega)
  rw [s1, s2, s3, s4]
  ring

theorem CTX32.newCTX32_eq_add (diff : ℤ) :
    CTX32.NewCTX diff
      = CTX32.fracPartOf diff % 2 ^ 8 + CTX32.extraSel diff % 2 ^ 4 * 2 ^ 8
          + CTX32.intPartOf diff % 2 ^ 17 * 2 ^ 12 + CTX32.signOf diff * 2 ^ 29
          + CTX32.scaleSel diff * 2 ^ 30 :=
  CTX32.pack32_eq_add _ _ _ _ _ (CTX32.scaleOf_lt _) (CTX32.signOf_lt _)

theorem CTX32.scaleField_NewCTX (diff : ℤ) :
    CTX32.scaleField (CTX32.NewCTX diff) = CTX32.scaleSel diff := by
  unfold CTX32.scaleField
  rw [show (CTX32.scaleMask : ℕ) = (2 ^ 2 - 1) <<< 30 by decide, and_mask_extract,
    CTX32.newCTX32_eq_add]
  have h1 := CTX32.scaleOf_lt |(diff : ℚ)|
  have h2 := CTX32.signOf_lt diff
  unfold CTX32.scaleSel at *
  omega

theorem CTX32.signField_NewCTX (diff : ℤ) :
    CTX32.signField (CTX32.NewCTX diff) = CTX32.signOf diff := by
  unfold CTX32.signField
  rw [show (CTX32.signMask : ℕ) = (2 ^ 1 - 1) <<< 29 by decide, and_mask_extract,
    CTX32.newCTX32_eq_add]
  have h1 := CTX32.scaleOf_lt |(diff : ℚ)|
  have h2 := CTX32.signOf_lt diff
  unfold CTX32.scaleSel at *
  omega

theorem CTX32.and_signMask_NewCTX (diff : ℤ) :
    CTX32.NewCTX diff &&& CTX32.signMask = CTX32.signOf diff * 2 ^ 29 := by
  rw [show (CTX32.signMask : ℕ) = (2 ^ 1 - 1) <<< 29 by decide, and_mask_eq_mul,
    CTX32.newCTX32_eq_add]
  have h1 := CTX32.scaleOf_lt |(diff : ℚ)|
  have h2 := CTX32.signOf_lt diff
  unfold CTX32.scaleSel at *
  omega

theorem CTX32.valueField_NewCTX (diff : ℤ) :
    CTX32.valueField (CTX32.NewCTX diff) = CTX32.intPartOf diff % 2 ^ 17 := by
  unfold CTX32.valueField
  rw [show (CTX32.valueMask : ℕ) = (2 ^ 17 - 1) <<< 12 by decide, and_mask_extract,
    CTX32.newCTX32_eq_add]
  have h1 := CTX32.scaleOf_lt |(diff : ℚ)|
  have h2 := CTX32.signOf_lt diff
  unfold CTX32.scaleSel at *
  omega

theorem CTX32.extraField_NewCTX (diff : ℤ) :
    CTX32.extraField (CTX32.NewCTX diff) = CTX32.extraSel diff := by
  unfold CTX32.extraField
  rw [show (CTX32.extraMask : ℕ) = (2 ^ 4 - 1) <<< 8 by decide, and_mask_extract,
    CTX32.newCTX32_eq_add]
  have h1 := CTX32.scaleOf_lt |(diff : ℚ)|
  have h2 := CTX32.signOf_lt diff
  have h3 := CTX32.extraSel_le diff
  unfold CTX32.scaleSel CTX32.extraSel at *
  omega

theorem CTX32.fracField_NewCTX (diff : ℤ) :
    CTX32.fracField (CTX32.NewCTX diff) = CTX32.fracPartOf diff % 2 ^ 8 := by
  unfold CTX32.fracField
  rw [show (CTX32.fracMask : ℕ) = 2 ^ 8 - 1 by decide, Nat.and_pow_two_sub_one_eq_mod,
    CTX32.newCTX32_eq_add]
  have h1 := CTX32.scaleOf_lt |(diff : ℚ)|
  have h2 := CTX32.signOf_lt diff
  unfold CTX32.scaleSel at *
  omega

/-! #### Evaluation helpers for `ratTrunc` -/

theorem ratTrunc_natCast (n : ℕ) : ratTrunc (n : ℚ) = n := by
  unfold ratTrunc
  simp [Rat.num_natCast, Rat.den_natCast]

theorem ratTrunc_zero : ratTrunc 0 = 0 := by
  simpa using ratTrunc_natCast 0

/-! #### C5 — dynamic base-scale selection -/

/-- Modelled from the spec sentence: base scale selected by magnitude of the
nanosecond delta — below 1 s (`10^9` ns) → nanosecond (0), below 1000 s →
microsecond (1), below `10^6` s → millisecond (2), otherwise second (3);
a tie at a boundary falls in the coarser class because the comparisons are
strict. -/
def CTX32.specScaleClass (diff : ℤ) : ℕ :=
  if |diff| < 10 ^ 9 then 0
  else if |diff| < 10 ^ 12 then 1
  else if |diff| < 10 ^ 15 then 2
  else 3

theorem CTX32.scaleSel_eq_spec (diff : ℤ) :
    CTX32.scaleSel diff = CTX32.specScaleClass diff := by
  unfold CTX32.scaleSel CTX32.scaleOf CTX32.specScaleClass
  have habs : |(diff : ℚ)| = ((|diff| : ℤ) : ℚ) := (Int.cast_abs (R := ℚ)).symm
  have h9 : ((|diff| : ℤ) : ℚ) < 10 ^ 9 ↔ |diff| < 10 ^ 9 := by norm_cast
  have h12 : ((|diff| : ℤ) : ℚ) < 10 ^ 12 ↔ |diff| < 10 ^ 12 := by norm_cast
  have h15 : ((|diff| : ℤ) : ℚ) < 10 ^ 15 ↔ |diff| < 10 ^ 15 := by norm_cast
  rw [habs]
  simp only [h9, h12, h15]

/-- C5: the 2-bit scale field of every encoded value matches the spec's
threshold classification of the absolute nanosecond delta, and each exact
boundary (1 s, 1000 s, 10^6 s) lands in the coarser class. -/
theorem C5_scale_selection :
    (∀ diff : ℤ, CTX32.scaleField (CTX32.NewCTX diff) = CTX32.specScaleClass diff)
      ∧ CTX32.scaleField (CTX32.NewCTX (10 ^ 9)) = 1
      ∧ CTX32.scaleField (CTX32.NewCTX (10 ^ 12)) = 2
      ∧ CTX32.scaleField (CTX32.NewCTX (10 ^ 15)) = 3 := by
  have key : ∀ diff : ℤ, CTX32.scaleField (CTX32.NewCTX diff) = CTX32.specScaleClass diff :=
    fun diff => (CTX32.scaleField_NewCTX diff).trans (CTX32.scaleSel_eq_spec diff)
  refine ⟨key, ?_, ?_, ?_⟩
  · rw [key]; unfold CTX32.specScaleClass; norm_num
  · rw [key]; unfold CTX32.specScaleClass; norm_num
  · rw [key]; unfold CTX32.specScaleClass; norm_num

/-! #### C4 — the extra-multiplier loop -/

theorem CTX32.exists_extraBound (n : ℕ) : ∃ e : ℕ, n < 2147483647 * 1000 ^ e := by
  refine ⟨n, ?_⟩
  calc n < 2 ^ n := Nat.lt_two_pow n
    _ ≤ 1000 ^ n := Nat.pow_le_pow_left (by norm_num) n
    _ ≤ 2147483647 * 1000 ^ n := Nat.le_mul_of_pos_left _ (by norm_num)

/-- The least number of divisions by 1000 after which a natural magnitude
drops below `2^31 - 1`. -/
def CTX32.leastExtra (n : ℕ) : ℕ := Nat.find (CTX32.exists_extraBound n)

theorem CTX32.exists_scaled_bound (a : ℚ) : ∃ j : ℕ, a < 2147483647 * 1000 ^ j := by
  obtain ⟨j, hj⟩ := pow_unbounded_of_one_lt a (by norm_num : (1 : ℚ) < 1000)
  exact ⟨j, hj.trans_le (le_mul_of_one_le_left (by positivity) (by norm_num))⟩

/-- Rational-valued version of `leastExtra`, tracking the loop directly. -/
def CTX32.stepsToFit (a : ℚ) : ℕ := Nat.find (CTX32.exists_scaled_bound a)

theorem CTX32.stepsToFit_zero {a : ℚ} (h : a < CTX32.maxInt32) : CTX32.stepsToFit a = 0 := by
  unfold CTX32.stepsToFit
  rw [Nat.find_eq_zero]
  unfold CTX32.maxInt32 at h
  simpa using h

theorem CTX32.stepsToFit_succ {a : ℚ} (h : CTX32.maxInt32 ≤ a) :
    CTX32.stepsToFit a = CTX32.stepsToFit (a / 1000) + 1 := by
  unfold CTX32.maxInt32 at h
  unfold CTX32.stepsToFit
  rw [Nat.find_eq_iff]
  constructor
  · have hs := Nat.find_spec (CTX32.exists_scaled_bound (a / 1000))
    rw [div_lt_iff₀ (by norm_num : (0 : ℚ) < 1000)] at hs
    calc a < 2147483647 * 1000 ^ Nat.find (CTX32.exists_scaled_bound (a / 1000)) * 1000 := hs
      _ = 2147483647 * 1000 ^ (Nat.find (CTX32.exists_scaled_bound (a / 1000)) + 1) := by ring
  · intro n hn
    match n with
    | 0 =>
        simp only [pow_zero, mul_one, not_lt]
        exact h
    | k + 1 =>
        have hk : k < Nat.find (CTX32.exists_scaled_bound (a / 1000)) := by omega
        have hmin := Nat.find_min (CTX32.exists_scaled_bound (a / 1000)) hk
        intro hcon
        apply hmin
        rw [div_lt_iff₀ (by norm_num : (0 : ℚ) < 1000)]
        calc a < 2147483647 * 1000 ^ (k + 1) := hcon
          _ = 2147483647 * 1000 ^ k * 1000 := by ring

theorem CTX32.extraGo_eq_min (f : ℕ) :
    ∀ (a : ℚ) (e : ℕ), e + f = 15 → CTX32.extraGo f a e = min 15 (e + CTX32.stepsToFit a) := by
  induction f with
  | zero =>
      intro a e he
      unfold CTX32.extraGo
      omega
  | succ f ih =>
      intro a e he
      unfold CTX32.extraGo
      by_cases hc : CTX32.maxInt32 ≤ a
      · rw [if_pos hc, CTX32.stepsToFit_succ hc]
        by_cases hb : 15 ≤ e + 1
        · rw [if_pos hb]
          omega
        · rw [if_neg hb, ih (a / 1000) (e + 1) (by omega)]
          omega
      · rw [if_neg hc, CTX32.stepsToFit_zero (not_le.mp hc)]
        omega

theorem CTX32.leastExtra_eq_steps (n : ℕ) : CTX32.stepsToFit ((n : ℕ) : ℚ) = CTX32.leastExtra n := by
  unfold CTX32.stepsToFit CTX32.leastExtra
  apply le_antisymm
  · apply Nat.find_min'
    have hs := Nat.find_spec (CTX32.exists_extraBound n)
    exact_mod_cast hs
  · apply Nat.find_min'
    have hs := Nat.find_spec (CTX32.exists_scaled_bound ((n : ℕ) : ℚ))
    exact_mod_cast hs

/-- C4 counterexample: at input delta `2.2·10^9` ns the selected base scale
is microsecond and the scaled magnitude is `2200`, well inside the 17-bit
field maximum `131071` — yet the loop still runs once (the stored `extra`
field is 1), because the actual guard compares the raw nanosecond delta
against `math.MaxInt32`, not the scaled magnitude against the field max. -/
theorem C4_counterexample :
    CTX32.scaleSel 2200000000 = 1
      ∧ |((2200000000 : ℤ) : ℚ)| * CTX32.scaleFactors.getD 1 0 = 2200
      ∧ (2200 : ℚ) ≤ 131071
      ∧ CTX32.extraField (CTX32.NewCTX 2200000000) = 1 := by
  refine ⟨?_, ?_, by norm_num, ?_⟩
  · unfold CTX32.scaleSel CTX32.scaleOf
    norm_num
  · norm_num [CTX32.scaleFactors]
  · rw [CTX32.extraField_NewCTX]
    unfold CTX32.extraSel CTX32.extraOf
    norm_num [CTX32.extraGo, CTX32.maxInt32]

/-- C4 (amended): the loop guard compares the (repeatedly divided) raw
absolute nanosecond delta against `math.MaxInt32 = 2^31 - 1` — not the
scaled magnitude against the 17-bit field maximum; each iteration divides by
1000 and increments `extra`, and the break fires right after the increment
that reaches 15, so the stored field is `min 15` of the number of divisions
needed to drop the raw delta below `2^31 - 1`.  Stated for deltas of
magnitude at most `2^53`, where the `float64` conversion of the delta is
exact and no guard comparison of the `float64` loop can be flipped by
rounding (see `CTX32.extraGo`); beyond `2^53` the conversion itself rounds
and the stored `extra` can exceed this value by one. -/
theorem C4_extra_loop_amended (diff : ℤ) (h : diff.natAbs ≤ 2 ^ 53) :
    CTX32.extraField (CTX32.NewCTX diff) = min 15 (CTX32.leastExtra diff.natAbs) := by
  rw [CTX32.extraField_NewCTX]
  unfold CTX32.extraSel CTX32.extraOf
  rw [CTX32.extraGo_eq_min 15 _ 0 rfl]
  rw [show |(diff : ℚ)| = ((diff.natAbs : ℕ) : ℚ) from by rw [← Int.cast_abs, Int.cast_natAbs]]
  rw [CTX32.leastExtra_eq_steps]
  omega

/-- Witness for the amended C4 at the concrete delta `2.2·10^9` ns, where
one division is needed: the stored `extra` field is `min 15 1 = 1`. -/
theorem C4_extra_loop_amended_witness :
    (2200000000 : ℤ).natAbs ≤ 2 ^ 53
      ∧ CTX32.extraField (CTX32.NewCTX 2200000000)
          = min 15 (CTX32.leastExtra (2200000000 : ℤ).natAbs) :=
  ⟨by norm_num, C4_extra_loop_amended 2200000000 (by norm_num)⟩

/-! #### C6 / C2 — byte serialization -/

theorem bytes4_or_eq {b0 b1 b2 b3 : ℕ} (h1 : b1 < 2 ^ 8) (h2 : b2 < 2 ^ 8) (h3 : b3 < 2 ^ 8) :
    (b0 <<< 24) ||| (b1 <<< 16) ||| (b2 <<< 8) ||| b3
      = ((b0 * 256 + b1) * 256 + b2) * 256 + b3 := by
  have e1 : (b0 <<< 24) ||| (b1 <<< 16) = b0 <<< 24 + b1 <<< 16 := by
    refine or_eq_add_of_dvd_of_lt (w := 24) ⟨b0, by rw [Nat.shiftLeft_eq]; ring⟩ ?_
    rw [Nat.shiftLeft_eq]
    omega
  have e2 : (b0 <<< 24 + b1 <<< 16) ||| (b2 <<< 8) = b0 <<< 24 + b1 <<< 16 + b2 <<< 8 := by
    refine or_eq_add_of_dvd_of_lt (w := 16)
      ⟨b0 * 2 ^ 8 + b1, by simp only [Nat.shiftLeft_eq]; ring⟩ ?_
    rw [Nat.shiftLeft_eq]
    omega
  have e3 : (b0 <<< 24 + b1 <<< 16 + b2 <<< 8) ||| b3
      = b0 <<< 24 + b1 <<< 16 + b2 <<< 8 + b3 :=
    or_eq_add_of_dvd_of_lt (w := 8)
      ⟨b0 * 2 ^ 16 + b1 * 2 ^ 8 + b2, by simp only [Nat.shiftLeft_eq]; ring⟩ h3
  rw [e1, e2, e3]
  simp only [Nat.shiftLeft_eq]
  ring

/-- C6: the dynamic-scale `FromBytes` returns the zero value for every input
whose length is not 4 (a defined default, not a failure), and reconstructs
the big-endian integer from any 4 bytes. -/
theorem C6_fromBytes_length_policy :
    (∀ b : List ℕ, b.length ≠ 4 → CTX32.FromBytes b = 0)
      ∧ ∀ b0 b1 b2 b3 : ℕ, b0 < 2 ^ 8 → b1 < 2 ^ 8 → b2 < 2 ^ 8 → b3 < 2 ^ 8 →
          CTX32.FromBytes [b0, b1, b2, b3] = ((b0 * 256 + b1) * 256 + b2) * 256 + b3 := by
  constructor
  · intro b hb
    match b with
    | [] => rfl
    | [_] => rfl
    | [_, _] => rfl
    | [_, _, _] => rfl
    | [_, _, _, _] => simp at hb
    | _ :: _ :: _ :: _ :: _ :: _ => rfl
  · intro b0 b1 b2 b3 h0 h1 h2 h3
    show (b0 <<< 24) ||| (b1 <<< 16) ||| (b2 <<< 8) ||| b3
        = ((b0 * 256 + b1) * 256 + b2) * 256 + b3
    exact bytes4_or_eq h1 h2 h3

/-- Witness for C6 at a 2-byte input (zero default) and a concrete 4-byte
input (big-endian reconstruction). -/
theorem C6_fromBytes_length_policy_witness :
    CTX32.FromBytes [1, 2] = 0
      ∧ CTX32.FromBytes [18, 52, 86, 120]
          = ((18 * 256 + 52) * 256 + 86) * 256 + 120 :=
  ⟨C6_fromBytes_length_policy.1 [1, 2] (by norm_num),
   C6_fromBytes_length_policy.2 18 52 86 120 (by norm_num) (by norm_num) (by norm_num)
     (by norm_num)⟩

/-- C2: byte serialization round-trips bit-exactly — `FromBytes ∘ Bytes` is
the identity on every 40-bit value of the fixed-epoch variant and on every
32-bit value of the dynamic-scale variant. -/
theorem C2_serialization_roundtrip :
    (∀ v : ℕ, v < 2 ^ 40 → CTX40.FromBytes (CTX40.Bytes v) = some v)
      ∧ ∀ v : ℕ, v < 2 ^ 32 → CTX32.FromBytes (CTX32.Bytes v) = v := by
  constructor
  · intro v hv
    simp only [CTX40.Bytes, CTX40.FromBytes]
    rw [CTX40.bytes_or_eq (Nat.mod_lt _ (by norm_num)) (Nat.mod_lt _ (by norm_num))
      (Nat.mod_lt _ (by norm_num)) (Nat.mod_lt _ (by norm_num)) (Nat.mod_lt _ (by norm_num))]
    simp only [Nat.shiftRight_eq_div_pow]
    congr 1
    omega
  · intro v hv
    simp only [CTX32.Bytes, CTX32.FromBytes]
    rw [bytes4_or_eq (Nat.mod_lt _ (by norm_num)) (Nat.mod_lt _ (by norm_num))
      (Nat.mod_lt _ (by norm_num))]
    simp only [Nat.shiftRight_eq_div_pow]
    omega

/-- Witness for C2 at the concrete 40-bit value `734439501432` and the
32-bit value `3735928559` (`0xDEADBEEF`). -/
theorem C2_serialization_roundtrip_witness :
    CTX40.FromBytes (CTX40.Bytes 734439501432) = some 734439501432
      ∧ CTX32.FromBytes (CTX32.Bytes 3735928559) = 3735928559 :=
  ⟨C2_serialization_roundtrip.1 734439501432 (by norm_num),
   C2_serialization_roundtrip.2 3735928559 (by norm_num)⟩

/-! #### C8 — sign symmetry -/

theorem CTX32.scaleSel_neg (x : ℤ) : CTX32.scaleSel (-x) = CTX32.scaleSel x := by
  unfold CTX32.scaleSel
  rw [Int.cast_neg, abs_neg]

theorem CTX32.extraSel_neg (x : ℤ) : CTX32.extraSel (-x) = CTX32.extraSel x := by
  unfold CTX32.extraSel
  rw [Int.cast_neg, abs_neg]

theorem CTX32.valueOf_neg (x : ℤ) : CTX32.valueOf (-x) = -CTX32.valueOf x := by
  unfold CTX32.valueOf
  rw [CTX32.scaleSel_neg, CTX32.extraSel_neg, Int.cast_neg]
  ring

theorem CTX32.intPartOf_neg (x : ℤ) : CTX32.intPartOf (-x) = CTX32.intPartOf x := by
  unfold CTX32.intPartOf
  rw [CTX32.valueOf_neg, abs_neg]

theorem CTX32.fracPartOf_neg (x : ℤ) : CTX32.fracPartOf (-x) = CTX32.fracPartOf x := by
  unfold CTX32.fracPartOf
  rw [CTX32.valueOf_neg, abs_neg, CTX32.intPartOf_neg]

theorem CTX32.scaleSel_lt (diff : ℤ) : CTX32.scaleSel diff < 4 := CTX32.scaleOf_lt _

/-- C8 counterexample at duration `d = 0`: the two encodings coincide and
both sign bits are 0 — equal, not opposite, so the claim fails for the
duration `d = 0`. -/
theorem C8_counterexample :
    CTX32.signField (CTX32.NewCTX (0 * 10 ^ 9)) = CTX32.signField (CTX32.NewCTX (-(0 * 10 ^ 9)))
      ∧ CTX32.signField (CTX32.NewCTX (0 * 10 ^ 9)) = 0 := by
  constructor
  · rw [show (-(0 * 10 ^ 9) : ℤ) = 0 * 10 ^ 9 by norm_num]
  · rw [CTX32.signField_NewCTX]
    unfold CTX32.signOf
    norm_num

/-- C8 (amended): for every strictly positive duration `d`, encoding the
times at `d` seconds after and before the Unix epoch yields equal scale,
magnitude, extra and fraction fields, opposite sign bits (0 for the future
time, 1 for the past one), and the decoded instants are negatives of each
other. -/
theorem C8_sign_symmetry (d : ℤ) (hd : 0 < d) :
    CTX32.scaleField (CTX32.NewCTX (-(d * 10 ^ 9))) = CTX32.scaleField (CTX32.NewCTX (d * 10 ^ 9))
      ∧ CTX32.valueField (CTX32.NewCTX (-(d * 10 ^ 9)))
          = CTX32.valueField (CTX32.NewCTX (d * 10 ^ 9))
      ∧ CTX32.extraField (CTX32.NewCTX (-(d * 10 ^ 9)))
          = CTX32.extraField (CTX32.NewCTX (d * 10 ^ 9))
      ∧ CTX32.fracField (CTX32.NewCTX (-(d * 10 ^ 9)))
          = CTX32.fracField (CTX32.NewCTX (d * 10 ^ 9))
      ∧ CTX32.signField (CTX32.NewCTX (d * 10 ^ 9)) = 0
      ∧ CTX32.signField (CTX32.NewCTX (-(d * 10 ^ 9))) = 1
      ∧ CTX32.Time (CTX32.NewCTX (-(d * 10 ^ 9)))
          = (CTX32.Time (CTX32.NewCTX (d * 10 ^ 9))).map (fun t => -t) := by
  have hD : 0 < d * 10 ^ 9 := by positivity
  have hsgp : CTX32.signOf (d * 10 ^ 9) = 0 := by
    unfold CTX32.signOf
    rw [if_neg (by omega)]
  have hsgm : CTX32.signOf (-(d * 10 ^ 9)) = 1 := by
    unfold CTX32.signOf
    rw [if_pos (by omega)]
  refine ⟨?_, ?_, ?_, ?_, ?_, ?_, ?_⟩
  · rw [CTX32.scaleField_NewCTX, CTX32.scaleField_NewCTX, CTX32.scaleSel_neg]
  · rw [CTX32.valueField_NewCTX, CTX32.valueField_NewCTX, CTX32.intPartOf_neg]
  · rw [CTX32.extraField_NewCTX, CTX32.extraField_NewCTX, CTX32.extraSel_neg]
  · rw [CTX32.fracField_NewCTX, CTX32.fracField_NewCTX, CTX32.fracPartOf_neg]
  · rw [CTX32.signField_NewCTX, hsgp]
  · rw [CTX32.signField_NewCTX, hsgm]
  · obtain ⟨sf, hsf⟩ : ∃ sf, CTX32.scaleFactors.get? (CTX32.scaleSel (d * 10 ^ 9)) = some sf := by
      have h4 := CTX32.scaleSel_lt (d * 10 ^ 9)
      set s := CTX32.scaleSel (d * 10 ^ 9) with hs
      interval_cases s <;> exact ⟨_, rfl⟩
    unfold CTX32.Time
    rw [CTX32.scaleField_NewCTX, CTX32.scaleField_NewCTX, CTX32.scaleSel_neg, hsf]
    simp only [Option.map_some']
    congr 1
    rw [CTX32.fracField_NewCTX, CTX32.fracField_NewCTX, CTX32.fracPartOf_neg,
      CTX32.extraField_NewCTX, CTX32.extraField_NewCTX, CTX32.extraSel_neg,
      CTX32.valueField_NewCTX, CTX32.valueField_NewCTX, CTX32.intPartOf_neg,
      CTX32.and_signMask_NewCTX, CTX32.and_signMask_NewCTX, hsgp, hsgm]
    norm_num [ratTrunc_neg]

/-- Witness for C8 at the concrete duration `d = 2` seconds. -/
theorem C8_sign_symmetry_witness :
    CTX32.scaleField (CTX32.NewCTX (-(2 * 10 ^ 9))) = CTX32.scaleField (CTX32.NewCTX (2 * 10 ^ 9))
      ∧ CTX32.valueField (CTX32.NewCTX (-(2 * 10 ^ 9)))
          = CTX32.valueField (CTX32.NewCTX (2 * 10 ^ 9))
      ∧ CTX32.extraField (CTX32.NewCTX (-(2 * 10 ^ 9)))
          = CTX32.extraField (CTX32.NewCTX (2 * 10 ^ 9))
      ∧ CTX32.fracField (CTX32.NewCTX (-(2 * 10 ^ 9)))
          = CTX32.fracField (CTX32.NewCTX (2 * 10 ^ 9))
      ∧ CTX32.signField (CTX32.NewCTX (2 * 10 ^ 9)) = 0
      ∧ CTX32.signField (CTX32.NewCTX (-(2 * 10 ^ 9))) = 1
      ∧ CTX32.Time (CTX32.NewCTX (-(2 * 10 ^ 9)))
          = (CTX32.Time (CTX32.NewCTX (2 * 10 ^ 9))).map (fun t => -t) :=
  C8_sign_symmetry 2 (by norm_num)

/-! #### C7 — zero identities, C9 — decoder totality -/

theorem CTX32.NewCTX_zero : CTX32.NewCTX 0 = 0 := by
  have hsc : CTX32.scaleSel 0 = 0 := by
    unfold CTX32.scaleSel CTX32.scaleOf
    norm_num
  have he : CTX32.extraSel 0 = 0 := by
    unfold CTX32.extraSel CTX32.extraOf
    norm_num [CTX32.extraGo, CTX32.maxInt32]
  have hv : CTX32.valueOf 0 = 0 := by
    unfold CTX32.valueOf
    norm_num
  have hi : CTX32.intPartOf 0 = 0 := by
    unfold CTX32.intPartOf
    rw [hv]
    norm_num [ratTrunc_zero]
  have hf : CTX32.fracPartOf 0 = 0 := by
    unfold CTX32.fracPartOf
    rw [hv, hi]
    norm_num [ratTrunc_zero]
  have hs : CTX32.signOf 0 = 0 := by
    unfold CTX32.signOf
    norm_num
  unfold CTX32.NewCTX
  rw [hsc, he, hi, hf, hs]
  decide

theorem CTX32.Time_zero : CTX32.Time 0 = some 0 := by
  unfold CTX32.Time
  rw [show CTX32.scaleField 0 = 0 from by decide]
  rw [show CTX32.scaleFactors.get? 0 = some (1 / 10 ^ 9) from rfl]
  simp only [Option.map_some']
  rw [show CTX32.fracField 0 = 0 from by decide,
    show CTX32.extraField 0 = 0 from by decide,
    show CTX32.valueField 0 = 0 from by decide,
    show (0 &&& CTX32.signMask : ℕ) = 0 from by decide]
  norm_num [ratTrunc_zero]

/-- C7: encoding the configuration's epoch instant with zero fraction gives
the integer 0, decoding 0 gives back exactly the epoch instant, the zero
value serializes to all-zero bytes of the fixed length, and those bytes
deserialize to 0 — in both configurations (2020 epoch for the fixed-epoch
variant, Unix epoch for the dynamic-scale one). -/
theorem C7_zero_encoding :
    CTX40.NewCTX CTX40.epoch 0 = 0
      ∧ CTX40.Time 0 = CTX40.epoch * 10 ^ 9
      ∧ CTX40.Bytes 0 = [0, 0, 0, 0, 0]
      ∧ CTX40.FromBytes [0, 0, 0, 0, 0] = some 0
      ∧ CTX32.NewCTX 0 = 0
      ∧ CTX32.Time 0 = some 0
      ∧ CTX32.Bytes 0 = [0, 0, 0, 0]
      ∧ CTX32.FromBytes [0, 0, 0, 0] = 0 :=
  ⟨by decide, by decide, by decide, by decide, CTX32.NewCTX_zero, CTX32.Time_zero,
    by decide, by decide⟩

/-- C9: the dynamic-scale decoder is total — for every 32-bit pattern the
extracted 2-bit scale indexes inside the 4-element scale-factor table, so
`Time` returns a value (`isSome`) on all `2^32` inputs.  (The fixed-epoch
decoder is pure mask-and-shift arithmetic with no failure path, total by
construction.) -/
theorem C9_decoder_total (c : ℕ) (hc : c < 2 ^ 32) :
    CTX32.scaleField c < CTX32.scaleFactors.length ∧ (CTX32.Time c).isSome := by
  have h4 : CTX32.scaleField c < 4 := by
    unfold CTX32.scaleField
    rw [show (CTX32.scaleMask : ℕ) = (2 ^ 2 - 1) <<< 30 by decide, and_mask_extract]
    omega
  refine ⟨by simpa [CTX32.scaleFactors] using h4, ?_⟩
  obtain ⟨sf, hsf⟩ : ∃ sf, CTX32.scaleFactors.get? (CTX32.scaleField c) = some sf := by
    set s := CTX32.scaleField c with hs
    interval_cases s <;> exact ⟨_, rfl⟩
  unfold CTX32.Time
  rw [hsf]
  simp

/-- Witness for C9 at the all-ones 32-bit pattern. -/
theorem C9_decoder_total_witness :
    CTX32.scaleField 4294967295 < CTX32.scaleFactors.length
      ∧ (CTX32.Time 4294967295).isSome :=
  C9_decoder_total 4294967295 (by norm_num)

/-- Witness for the amended C1 at the concrete instant 123456789 ns after
`epoch + 5` seconds. -/
theorem C1_fixed_roundtrip_bound_witness :
    ((CTX40.epoch + 5) * 10 ^ 9 + ((123456789 : ℕ) : ℤ))
          - CTX40.Time (CTX40.NewCTX (CTX40.epoch + 5) 123456789)
        = ((123456789 % 10 ^ 6 : ℕ) : ℤ)
      ∧ CTX40.fracField (CTX40.NewCTX (CTX40.epoch + 5) 123456789) = 123456789 / 10 ^ 6
      ∧ (((CTX40.epoch + 5) * 10 ^ 9 + ((123456789 : ℕ) : ℤ))
            - CTX40.Time (CTX40.NewCTX (CTX40.epoch + 5) 123456789)) * 1000 < 10 ^ 9 :=
  C1_fixed_roundtrip_bound (CTX40.epoch + 5) 123456789 (by omega) (by omega) (by norm_num)
